import Mathlib

/-!
Verification of the Visual Target Resolution Engine
(`src/vision/template_matcher.py`) of the browsergeist repository.

The Python module is shallowly embedded below.  Pure orchestration logic
(the fallback cascade, the best-result tracking loops, the cache, the text
resolver) is translated function by function.  Calls into external
libraries (OpenCV primitives such as `cv2.matchTemplate` / `cv2.minMaxLoc`
/ `cv2.findHomography` / SIFT detection, and `difflib.SequenceMatcher`)
are modelled as oracle parameters: the embedding receives the values those
primitives would return for the concrete frame/template of the call, and
the repository's own logic around them is embedded faithfully.  Python
floats are modelled as exact rationals (`ℚ`), Python ints as `ℤ`/`ℕ`,
Python's `//` as `Int.fdiv`, `int()` truncation as truncation toward zero.
Code that can raise is embedded in `Except Unit`.
-/

namespace BrowserGeist

/-- Embedding of the `MatchResult` dataclass (template_matcher.py lines
19-41).  `center_x`/`center_y` are stored fields, computed by each matcher. -/
structure MatchResult where
  x : ℤ
  y : ℤ
  width : ℤ
  height : ℤ
  confidence : ℚ
  center_x : ℤ
  center_y : ℤ
  method : String
deriving Repr, DecidableEq

/-- Python's `//` (floor division) on integers. -/
def pyFloorDiv (a b : ℤ) : ℤ := Int.fdiv a b

/-- Python's `int()` applied to a float: truncation toward zero. -/
def pyInt (q : ℚ) : ℤ := if 0 ≤ q then ⌊q⌋ else ⌈q⌉

/-- Round half to even, as Python's float formatting does. -/
def roundHalfEven (q : ℚ) : ℤ :=
  if q - ⌊q⌋ < 1/2 then ⌊q⌋
  else if 1/2 < q - ⌊q⌋ then ⌊q⌋ + 1
  else if ⌊q⌋ % 2 = 0 then ⌊q⌋ else ⌊q⌋ + 1

/-- Python `f"{q:.df}"` fixed-point formatting of a non-negative float. -/
def pyFormatFixed (d : ℕ) (q : ℚ) : String :=
  let n := (roundHalfEven (q * (10 : ℚ) ^ d)).toNat
  let intPart := n / 10 ^ d
  let fracPart := n % 10 ^ d
  toString intPart ++ "." ++
    String.mk (List.replicate (d - (toString fracPart).length) '0') ++
    toString fracPart

/-! ## The Fallback Cascade Controller

`find_template_with_fallbacks` (lines 315-348) calls the four private
matchers in a fixed order.  For the controller's correctness the four
stage methods are abstracted as functions from the threshold they are
given to the optional result they return (each is specialised to the
frame and template of the call); the concrete stage embeddings below
satisfy the `WellBehaved` post-condition that each only returns results
meeting the threshold it was given, which the stage lemmas establish. -/

/-- The four stage methods of `TemplateMatcher`, specialised to one
(frame, template) pair: each takes the confidence threshold it is passed. -/
structure Stages where
  matchMultiScale : ℚ → Option MatchResult
  matchFeatures : ℚ → Option MatchResult
  matchTemplate : ℚ → Option MatchResult
  matchWithPreprocessing : ℚ → Option MatchResult

/-- Names for the five cascade stages, for the invocation trace. -/
inductive StageName where
  | multiScale
  | feature
  | correlation
  | preprocessing
  | lastResort
deriving Repr, DecidableEq

/-- Embedding of the controller's `if result and result.confidence >= t:
return result` test. -/
def passes (r : Option MatchResult) (t : ℚ) : Bool :=
  match r with
  | some m => decide (t ≤ m.confidence)
  | none => false

/-- Embedding of `result.method += "_low_confidence"` (line 345). -/
def annotateLowConfidence (m : MatchResult) : MatchResult :=
  { m with method := m.method ++ "_low_confidence" }

/-- Embedding of `TemplateMatcher.find_template_with_fallbacks`
(lines 315-348), instrumented with the ordered trace of
(stage, threshold) invocations actually performed. -/
def findTemplateWithFallbacks (st : Stages) (confidence : ℚ) :
    Option MatchResult × List (StageName × ℚ) :=
  let r1 := st.matchMultiScale confidence
  if passes r1 confidence then
    (r1, [(StageName.multiScale, confidence)])
  else
    let r2 := st.matchFeatures (confidence * (9/10))
    if passes r2 (confidence * (9/10)) then
      (r2, [(StageName.multiScale, confidence), (StageName.feature, confidence * (9/10))])
    else
      let r3 := st.matchTemplate (confidence * (8/10))
      if passes r3 (confidence * (8/10)) then
        (r3, [(StageName.multiScale, confidence), (StageName.feature, confidence * (9/10)),
              (StageName.correlation, confidence * (8/10))])
      else
        let r4 := st.matchWithPreprocessing (confidence * (7/10))
        if passes r4 (confidence * (7/10)) then
          (r4, [(StageName.multiScale, confidence), (StageName.feature, confidence * (9/10)),
                (StageName.correlation, confidence * (8/10)),
                (StageName.preprocessing, confidence * (7/10))])
        else
          let r5 := st.matchTemplate (1/2)
          match r5 with
          | some m =>
            (some (annotateLowConfidence m),
             [(StageName.multiScale, confidence), (StageName.feature, confidence * (9/10)),
              (StageName.correlation, confidence * (8/10)),
              (StageName.preprocessing, confidence * (7/10)), (StageName.lastResort, 1/2)])
          | none =>
            (none,
             [(StageName.multiScale, confidence), (StageName.feature, confidence * (9/10)),
              (StageName.correlation, confidence * (8/10)),
              (StageName.preprocessing, confidence * (7/10)), (StageName.lastResort, 1/2)])

/-- The cascade exactly as the specification describes it (a second
definition written from the spec's words, for the refinement claim C1):
attempt Multi-Scale at `c`, Feature at `0.9·c`, Correlation at `0.8·c`,
Preprocessing at `0.7·c`, last-resort Correlation at the fixed floor
`0.5`; return the result of the first stage returning non-none, the
last-resort result tagged low-confidence, none when all five return none. -/
def claimedCascade (st : Stages) (c : ℚ) :
    Option MatchResult × List (StageName × ℚ) :=
  match st.matchMultiScale c with
  | some m => (some m, [(StageName.multiScale, c)])
  | none =>
  match st.matchFeatures (c * (9/10)) with
  | some m => (some m, [(StageName.multiScale, c), (StageName.feature, c * (9/10))])
  | none =>
  match st.matchTemplate (c * (8/10)) with
  | some m => (some m, [(StageName.multiScale, c), (StageName.feature, c * (9/10)),
                        (StageName.correlation, c * (8/10))])
  | none =>
  match st.matchWithPreprocessing (c * (7/10)) with
  | some m => (some m, [(StageName.multiScale, c), (StageName.feature, c * (9/10)),
                        (StageName.correlation, c * (8/10)),
                        (StageName.preprocessing, c * (7/10))])
  | none =>
  match st.matchTemplate (1/2) with
  | some m => (some (annotateLowConfidence m),
               [(StageName.multiScale, c), (StageName.feature, c * (9/10)),
                (StageName.correlation, c * (8/10)),
                (StageName.preprocessing, c * (7/10)), (StageName.lastResort, 1/2)])
  | none => (none,
             [(StageName.multiScale, c), (StageName.feature, c * (9/10)),
              (StageName.correlation, c * (8/10)),
              (StageName.preprocessing, c * (7/10)), (StageName.lastResort, 1/2)])

/-- Each stage method only returns results whose confidence meets the
threshold it was passed (the post-condition the concrete matcher
embeddings are proved to satisfy below). -/
def WellBehaved (st : Stages) : Prop :=
  (∀ t m, st.matchMultiScale t = some m → t ≤ m.confidence) ∧
  (∀ t m, st.matchFeatures t = some m → t ≤ m.confidence) ∧
  (∀ t m, st.matchTemplate t = some m → t ≤ m.confidence) ∧
  (∀ t m, st.matchWithPreprocessing t = some m → t ≤ m.confidence)

/-- C1: the fallback cascade attempts the stages in exactly the order
Multi-Scale (threshold `c`), Feature (`0.9·c`), Correlation (`0.8·c`),
Preprocessing (`0.7·c`), last-resort Correlation (fixed floor `0.5`),
returns the result of the first stage returning non-none without invoking
later stages, tags the last-resort result low-confidence, and returns
none iff all five stages return none: the embedded controller coincides,
result and invocation trace both, with the cascade as claimed, for every
threshold and every well-behaved stage family. -/
theorem c1_cascade_order_thresholds_first_success (st : Stages) (c : ℚ)
    (hwb : WellBehaved st) :
    findTemplateWithFallbacks st c = claimedCascade st c ∧
    ((findTemplateWithFallbacks st c).1 = none ↔
      (st.matchMultiScale c = none ∧ st.matchFeatures (c * (9/10)) = none ∧
       st.matchTemplate (c * (8/10)) = none ∧
       st.matchWithPreprocessing (c * (7/10)) = none ∧
       st.matchTemplate (1/2) = none)) := by
  obtain ⟨h1, h2, h3, h4⟩ := hwb
  have heq : findTemplateWithFallbacks st c = claimedCascade st c := by
    unfold findTemplateWithFallbacks claimedCascade
    cases e1 : st.matchMultiScale c with
    | some m => simp [passes, h1 c m e1]
    | none =>
      simp only [passes]
      cases e2 : st.matchFeatures (c * (9/10)) with
      | some m => simp [passes, h2 _ m e2]
      | none =>
        simp only [passes]
        cases e3 : st.matchTemplate (c * (8/10)) with
        | some m => simp [passes, h3 _ m e3]
        | none =>
          simp only [passes]
          cases e4 : st.matchWithPreprocessing (c * (7/10)) with
          | some m => simp [passes, h4 _ m e4]
          | none =>
            simp only [passes]
            cases e5 : st.matchTemplate (1/2) with
            | some m => simp
            | none => simp
  refine ⟨heq, ?_⟩
  rw [heq]
  unfold claimedCascade
  cases e1 : st.matchMultiScale c with
  | some m => simp [e1]
  | none =>
    cases e2 : st.matchFeatures (c * (9/10)) with
    | some m => simp [e2]
    | none =>
      cases e3 : st.matchTemplate (c * (8/10)) with
      | some m => simp [e3]
      | none =>
        cases e4 : st.matchWithPreprocessing (c * (7/10)) with
        | some m => simp [e4]
        | none =>
          cases e5 : st.matchTemplate (1/2) with
          | some m => simp [e5]
          | none => simp [e5]

/-- A concrete stage family used to witness C1: only the correlation
stage can succeed, and only when its threshold allows a 0.9 score. -/
def demoStages : Stages where
  matchMultiScale := fun _ => none
  matchFeatures := fun _ => none
  matchTemplate := fun t =>
    if t ≤ 9/10 then some ⟨3, 4, 10, 10, 9/10, 8, 9, "template"⟩ else none
  matchWithPreprocessing := fun _ => none

/-- Witness for C1 at the concrete stage family `demoStages` and
threshold 0.8. -/
theorem c1_cascade_witness :
    WellBehaved demoStages ∧
    (findTemplateWithFallbacks demoStages (4/5) = claimedCascade demoStages (4/5) ∧
     ((findTemplateWithFallbacks demoStages (4/5)).1 = none ↔
       (demoStages.matchMultiScale (4/5) = none ∧
        demoStages.matchFeatures ((4/5) * (9/10)) = none ∧
        demoStages.matchTemplate ((4/5) * (8/10)) = none ∧
        demoStages.matchWithPreprocessing ((4/5) * (7/10)) = none ∧
        demoStages.matchTemplate (1/2) = none))) := by
  have hwb : WellBehaved demoStages := by
    refine ⟨fun t m h => by simp [demoStages] at h,
            fun t m h => by simp [demoStages] at h,
            fun t m h => ?_,
            fun t m h => by simp [demoStages] at h⟩
    simp only [demoStages] at h
    split_ifs at h with ht
    cases h
    simpa using ht
  exact ⟨hwb, c1_cascade_order_thresholds_first_success demoStages (4/5) hwb⟩

/-! ## The Multi-Scale Matcher

`_match_multi_scale` (lines 263-313).  The correlation primitive
(`cv2.resize` followed by `cv2.matchTemplate`/`cv2.minMaxLoc`, both
TM_CCOEFF_NORMED) is modelled as an oracle `score : ℚ → ℚ × ℤ × ℤ`
returning, for each scale factor, the peak value and peak location the
primitives would return for the fixed frame/template of the call. -/

/-- The fixed scale ladder of `_match_multi_scale` (line 273). -/
def scaleFactors : List ℚ :=
  [1/2, 3/5, 7/10, 4/5, 9/10, 1, 11/10, 6/5, 13/10, 7/5, 3/2, 8/5, 17/10, 9/5, 19/10, 2]

/-- The skip test of `_match_multi_scale` (lines 282-291): skip a scale
whose resized template would exceed the frame in either dimension or fall
below 10 pixels in either dimension. -/
def msSkip (fH fW tH tW : ℕ) (scale : ℚ) : Bool :=
  let scaledW := pyInt ((tW : ℚ) * scale)
  let scaledH := pyInt ((tH : ℚ) * scale)
  decide ((fH : ℤ) < scaledH) || decide ((fW : ℤ) < scaledW) ||
  decide (scaledH < 10) || decide (scaledW < 10)

/-- The `MatchResult` built by `_match_multi_scale` when a scale wins
(lines 304-310). -/
def msResult (tH tW : ℕ) (score : ℚ → ℚ × ℤ × ℤ) (scale : ℚ) : MatchResult :=
  { x := (score scale).2.1
    y := (score scale).2.2
    width := pyInt ((tW : ℚ) * scale)
    height := pyInt ((tH : ℚ) * scale)
    confidence := (score scale).1
    center_x := (score scale).2.1 + pyFloorDiv (pyInt ((tW : ℚ) * scale)) 2
    center_y := (score scale).2.2 + pyFloorDiv (pyInt ((tH : ℚ) * scale)) 2
    method := "multi_scale_" ++ pyFormatFixed 1 scale ++ "x" }

/-- One iteration of the scale loop of `_match_multi_scale`: the
accumulator is `(best_result, best_confidence)`, updated only when
`max_val > best_confidence and max_val >= confidence` (line 299). -/
def msStep (fH fW tH tW : ℕ) (score : ℚ → ℚ × ℤ × ℤ) (confidence : ℚ)
    (acc : Option MatchResult × ℚ) (scale : ℚ) : Option MatchResult × ℚ :=
  if msSkip fH fW tH tW scale then acc
  else if acc.2 < (score scale).1 ∧ confidence ≤ (score scale).1 then
    (some (msResult tH tW score scale), (score scale).1)
  else acc

/-- Embedding of `TemplateMatcher._match_multi_scale` (lines 263-313):
fold the scale loop from `(None, 0)` and return the best result. -/
def matchMultiScale (fH fW tH tW : ℕ) (score : ℚ → ℚ × ℤ × ℤ)
    (confidence : ℚ) : Option MatchResult :=
  (scaleFactors.foldl (msStep fH fW tH tW score confidence) (none, 0)).1

/-- The accumulator invariant of the scale loop: the tracked
`best_confidence` is 0 while no best is held, and equals the held best's
confidence, which meets the threshold, once one is. -/
def msGood (c : ℚ) (acc : Option MatchResult × ℚ) : Prop :=
  (acc.1 = none → acc.2 = 0) ∧
  (∀ m, acc.1 = some m → acc.2 = m.confidence ∧ c ≤ m.confidence)

theorem msFoldl_spec (fH fW tH tW : ℕ) (score : ℚ → ℚ × ℤ × ℤ) (c : ℚ)
    (hc : 0 < c) (L : List ℚ) :
    ∀ acc : Option MatchResult × ℚ, msGood c acc →
      msGood c (L.foldl (msStep fH fW tH tW score c) acc) ∧
      acc.2 ≤ (L.foldl (msStep fH fW tH tW score c) acc).2 ∧
      (∀ s ∈ L, msSkip fH fW tH tW s = false → c ≤ (score s).1 →
        (score s).1 ≤ (L.foldl (msStep fH fW tH tW score c) acc).2) ∧
      ((L.foldl (msStep fH fW tH tW score c) acc) = acc ∨
        ∃ m, (L.foldl (msStep fH fW tH tW score c) acc).1 = some m ∧
          ∃ s ∈ L, msSkip fH fW tH tW s = false ∧ (score s).1 = m.confidence ∧
            c ≤ (score s).1) ∧
      ((L.foldl (msStep fH fW tH tW score c) acc).1 = none ↔
        (acc.1 = none ∧
          ∀ s ∈ L, msSkip fH fW tH tW s = false → (score s).1 < c)) := by
  induction L with
  | nil =>
    intro acc hg
    exact ⟨hg, le_refl _, by simp, Or.inl rfl, by simp⟩
  | cons s L ih =>
    intro acc hg
    simp only [List.foldl_cons]
    by_cases hskip : msSkip fH fW tH tW s = true
    · have hstep : msStep fH fW tH tW score c acc s = acc := by
        simp [msStep, hskip]
      rw [hstep]
      obtain ⟨g', mono, bound, ach, niff⟩ := ih acc hg
      refine ⟨g', mono, ?_, ?_, ?_⟩
      · intro t ht htr hq
        rcases List.mem_cons.mp ht with rfl | ht'
        · rw [hskip] at htr; cases htr
        · exact bound t ht' htr hq
      · rcases ach with h | h
        · exact Or.inl h
        · obtain ⟨m, hm, t, ht, h1, h2, h3⟩ := h
          exact Or.inr ⟨m, hm, t, List.mem_cons_of_mem _ ht, h1, h2, h3⟩
      · rw [niff]
        constructor
        · rintro ⟨h1, h2⟩
          refine ⟨h1, fun t ht htr => ?_⟩
          rcases List.mem_cons.mp ht with rfl | ht'
          · rw [hskip] at htr; cases htr
          · exact h2 t ht' htr
        · rintro ⟨h1, h2⟩
          exact ⟨h1, fun t ht htr => h2 t (List.mem_cons_of_mem _ ht) htr⟩
    · have hskip' : msSkip fH fW tH tW s = false := by
        simpa using hskip
      by_cases hcond : acc.2 < (score s).1 ∧ c ≤ (score s).1
      · have hstep : msStep fH fW tH tW score c acc s =
            (some (msResult tH tW score s), (score s).1) := by
          simp [msStep, hskip', hcond]
        rw [hstep]
        have hg' : msGood c (some (msResult tH tW score s), (score s).1) := by
          constructor
          · intro h; cases h
          · intro m hm
            cases hm
            exact ⟨rfl, hcond.2⟩
        obtain ⟨g', mono, bound, ach, niff⟩ := ih _ hg'
        refine ⟨g', le_trans (le_of_lt hcond.1) mono, ?_, ?_, ?_⟩
        · intro t ht htr hq
          rcases List.mem_cons.mp ht with rfl | ht'
          · exact le_trans (le_refl _) mono
          · exact bound t ht' htr hq
        · rcases ach with h | h
          · refine Or.inr ⟨msResult tH tW score s, ?_, s, List.mem_cons_self s L,
              hskip', rfl, hcond.2⟩
            rw [h]
          · obtain ⟨m, hm, t, ht, h1, h2, h3⟩ := h
            exact Or.inr ⟨m, hm, t, List.mem_cons_of_mem _ ht, h1, h2, h3⟩
        · rw [niff]
          constructor
          · rintro ⟨h1, _⟩
            cases h1
          · rintro ⟨h1, h2⟩
            exact absurd (h2 s (List.mem_cons_self s L) hskip')
              (not_lt.mpr hcond.2)
      · have hstep : msStep fH fW tH tW score c acc s = acc := by
          simp only [msStep, hskip']
          simp [hcond]
        rw [hstep]
        obtain ⟨g', mono, bound, ach, niff⟩ := ih acc hg
        refine ⟨g', mono, ?_, ?_, ?_⟩
        · intro t ht htr hq
          rcases List.mem_cons.mp ht with rfl | ht'
          · have : ¬ acc.2 < (score t).1 := fun hlt => hcond ⟨hlt, hq⟩
            exact le_trans (not_lt.mp this) mono
          · exact bound t ht' htr hq
        · rcases ach with h | h
          · exact Or.inl h
          · obtain ⟨m, hm, t, ht, h1, h2, h3⟩ := h
            exact Or.inr ⟨m, hm, t, List.mem_cons_of_mem _ ht, h1, h2, h3⟩
        · rw [niff]
          constructor
          · rintro ⟨h1, h2⟩
            refine ⟨h1, fun t ht htr => ?_⟩
            rcases List.mem_cons.mp ht with rfl | ht'
            · by_contra hge
              have hq : c ≤ (score t).1 := not_lt.mp hge
              have hnlt : ¬ acc.2 < (score t).1 := fun hlt => hcond ⟨hlt, hq⟩
              have hz : acc.2 = 0 := (hg.1) h1
              have hle : (score t).1 ≤ 0 := by rw [← hz]; exact not_lt.mp hnlt
              exact absurd (lt_of_lt_of_le hc hq) (not_lt.mpr hle)
            · exact h2 t ht' htr
          · rintro ⟨h1, h2⟩
            exact ⟨h1, fun t ht htr => h2 t (List.mem_cons_of_mem _ ht) htr⟩

/-- C6 (amended to positive thresholds): for every positive threshold `c`,
the multi-scale matcher returns none iff no tried (non-skipped) scale
scored at least `c`; when it returns a result, that result's confidence
meets `c`, is attained by some tried scale, and dominates every tried
scale's score that is at least `c` — so a sub-threshold attempt never
overwrites a qualifying best. -/
theorem c6_multi_scale_best_tracking (fH fW tH tW : ℕ)
    (score : ℚ → ℚ × ℤ × ℤ) (c : ℚ) (hc : 0 < c) :
    (matchMultiScale fH fW tH tW score c = none ↔
      ∀ s ∈ scaleFactors, msSkip fH fW tH tW s = false → (score s).1 < c) ∧
    (∀ m, matchMultiScale fH fW tH tW score c = some m →
      c ≤ m.confidence ∧
      (∃ s ∈ scaleFactors, msSkip fH fW tH tW s = false ∧
        (score s).1 = m.confidence) ∧
      (∀ s ∈ scaleFactors, msSkip fH fW tH tW s = false → c ≤ (score s).1 →
        (score s).1 ≤ m.confidence)) := by
  obtain ⟨g', mono, bound, ach, niff⟩ :=
    msFoldl_spec fH fW tH tW score c hc scaleFactors (none, 0)
      ⟨fun _ => rfl, fun m hm => by cases hm⟩
  constructor
  · unfold matchMultiScale
    rw [niff]
    simp
  · intro m hm
    unfold matchMultiScale at hm
    have hconf := g'.2 m hm
    refine ⟨hconf.2, ?_, ?_⟩
    · rcases ach with h | h
      · rw [h] at hm
        cases hm
      · obtain ⟨m', hm', t, ht, h1, h2, h3⟩ := h
        have hmm : m' = m := by
          rw [hm] at hm'
          exact (Option.some.inj hm').symm
        exact ⟨t, ht, h1, hmm ▸ h2⟩
    · intro s hs htr hq
      have hb := bound s hs htr hq
      rw [← hconf.1]
      exact hb

/-- A concrete score oracle for the C6 witness: only scale 1.0 scores. -/
def demoScore : ℚ → ℚ × ℤ × ℤ :=
  fun s => (if s = 1 then (9/10 : ℚ) else 0, 3, 4)

/-- Witness for C6 at the concrete frame 100×100, template 20×20,
oracle `demoScore` and threshold 0.8. -/
theorem c6_multi_scale_witness :
    (0 : ℚ) < 4/5 ∧
    ((matchMultiScale 100 100 20 20 demoScore (4/5) = none ↔
      ∀ s ∈ scaleFactors, msSkip 100 100 20 20 s = false →
        (demoScore s).1 < 4/5) ∧
    (∀ m, matchMultiScale 100 100 20 20 demoScore (4/5) = some m →
      (4/5 : ℚ) ≤ m.confidence ∧
      (∃ s ∈ scaleFactors, msSkip 100 100 20 20 s = false ∧
        (demoScore s).1 = m.confidence) ∧
      (∀ s ∈ scaleFactors, msSkip 100 100 20 20 s = false →
        (4/5 : ℚ) ≤ (demoScore s).1 → (demoScore s).1 ≤ m.confidence))) :=
  ⟨by norm_num,
   c6_multi_scale_best_tracking 100 100 20 20 demoScore (4/5) (by norm_num)⟩

/-- The all-zero score oracle for the C6 counterexample. -/
def zeroScore : ℚ → ℚ × ℤ × ℤ := fun _ => (0, 0, 0)

/-- Counterexample to C6 as stated for arbitrary thresholds: at threshold
`c = 0`, scale 1.0 is tried and scores `0 ≥ c` (a qualifying attempt per
the claim), yet the matcher returns none, because `best_confidence` is
initialised to 0 and the update requires a strictly larger score. -/
theorem c6_zero_threshold_counterexample :
    matchMultiScale 100 100 20 20 zeroScore 0 = none ∧
    (1 : ℚ) ∈ scaleFactors ∧ msSkip 100 100 20 20 1 = false ∧
    (0 : ℚ) ≤ (zeroScore 1).1 := by
  refine ⟨?_, by norm_num [scaleFactors], by norm_num [msSkip, pyInt],
    le_refl 0⟩
  simp [matchMultiScale, scaleFactors, msStep, zeroScore]

/-! ## The Correlation Matcher

`_match_template` (lines 144-187) loops over three scoring formulas.
Its body is, in order: the two grayscale conversions (lines 150-151),
the three-formula `methods` list (lines 154-158), the initialisation
`best_result = None; best_confidence = 0` (lines 160-161), the
`for method in methods` loop (lines 163-185) whose first statement is
the `cv2.matchTemplate` call (line 164), and `return best_result`
(line 187).  There is no conditional between the function header and
the loop, and no statement in the function reads a `.shape` dimension
except the `h, w = gray_template.shape` inside the result construction
(line 175); the only template-versus-frame size comparison in the whole
module is `_match_multi_scale`'s skip of the scaled template (line 286).
Each `cv2.matchTemplate` + `cv2.minMaxLoc` call is modelled as an oracle
from the formula to the `(min_val, max_val, min_loc, max_loc)` tuple it
would return for the fixed frame/template of the call — or to an error:
OpenCV raises when the template exceeds the frame in either dimension,
and `_match_template` installs no guard and no handler for that.  The
embedding also records the ordered list of primitive invocations. -/

/-- The three scoring formulas of `_match_template` (lines 154-158). -/
inductive TMMethod where
  | ccoeffNormed
  | ccorrNormed
  | sqdiffNormed
deriving Repr, DecidableEq

/-- What `cv2.matchTemplate` + `cv2.minMaxLoc` return for one formula. -/
structure MinMaxLoc where
  minVal : ℚ
  maxVal : ℚ
  minLoc : ℤ × ℤ
  maxLoc : ℤ × ℤ

/-- The method list of `_match_template`, in loop order. -/
def tmMethods : List TMMethod :=
  [TMMethod.ccoeffNormed, TMMethod.ccorrNormed, TMMethod.sqdiffNormed]

/-- `match_confidence` per formula (lines 167-171): `1 - min_val` for
squared-difference, the raw peak otherwise. -/
def tmConfidence (m : TMMethod) (r : MinMaxLoc) : ℚ :=
  if m = TMMethod.sqdiffNormed then 1 - r.minVal else r.maxVal

/-- `top_left` per formula (lines 167-172). -/
def tmTopLeft (m : TMMethod) (r : MinMaxLoc) : ℤ × ℤ :=
  if m = TMMethod.sqdiffNormed then r.minLoc else r.maxLoc

/-- The `MatchResult` built by `_match_template` (lines 179-184). -/
def tmResult (tH tW : ℕ) (m : TMMethod) (r : MinMaxLoc) : MatchResult :=
  { x := (tmTopLeft m r).1
    y := (tmTopLeft m r).2
    width := (tW : ℤ)
    height := (tH : ℤ)
    confidence := tmConfidence m r
    center_x := (tmTopLeft m r).1 + pyFloorDiv (tW : ℤ) 2
    center_y := (tmTopLeft m r).2 + pyFloorDiv (tH : ℤ) 2
    method := "template" }

/-- The formula loop of `_match_template`: the accumulator is
`(best_result, best_confidence)`; a primitive error propagates (there is
no try/except in `_match_template`).  Also returns the invocations made. -/
def matchTemplateGo (corr : TMMethod → Except Unit MinMaxLoc) (tH tW : ℕ)
    (confidence : ℚ) :
    List TMMethod → Option MatchResult → ℚ → List TMMethod →
      Except Unit (Option MatchResult) × List TMMethod
  | [], best, _, tr => (Except.ok best, tr.reverse)
  | m :: ms, best, bestConf, tr =>
    match corr m with
    | Except.error e => (Except.error e, (m :: tr).reverse)
    | Except.ok r =>
      if bestConf < tmConfidence m r ∧ confidence ≤ tmConfidence m r then
        matchTemplateGo corr tH tW confidence ms (some (tmResult tH tW m r))
          (tmConfidence m r) (m :: tr)
      else
        matchTemplateGo corr tH tW confidence ms best bestConf (m :: tr)

/-- Embedding of `TemplateMatcher._match_template` (lines 144-187),
paired with the ordered list of correlation-primitive invocations. -/
def matchTemplateRun (corr : TMMethod → Except Unit MinMaxLoc)
    (tH tW : ℕ) (confidence : ℚ) :
    Except Unit (Option MatchResult) × List TMMethod :=
  matchTemplateGo corr tH tW confidence tmMethods none 0 []

/-- C2 amended: `_match_template` contains no dimension guard.  Whenever
the correlation primitive fails on the first formula — as OpenCV does
when the template exceeds the frame in either dimension — the matcher
invokes it (exactly one invocation happens) and the error propagates to
the caller; none is not returned. -/
theorem c2_no_dimension_guard (corr : TMMethod → Except Unit MinMaxLoc)
    (tH tW : ℕ) (c : ℚ)
    (h : corr TMMethod.ccoeffNormed = Except.error ()) :
    matchTemplateRun corr tH tW c =
      (Except.error (), [TMMethod.ccoeffNormed]) := by
  simp [matchTemplateRun, matchTemplateGo, tmMethods, h]

/-- The oracle modelling `cv2.matchTemplate` on a 10×10 template and a
5×5 frame: the template exceeds the frame, so every invocation raises. -/
def oversizedCorr : TMMethod → Except Unit MinMaxLoc :=
  fun _ => Except.error ()

/-- Counterexample to C2 as stated: with a 10×10 template and 5×5 frame
(primitive raising, per OpenCV), `_match_template` attempts a correlation
computation (the invocation trace is exactly the first formula) and the
call ends in an error, not in none. -/
theorem c2_counterexample :
    matchTemplateRun oversizedCorr 10 10 (4/5) =
      (Except.error (), [TMMethod.ccoeffNormed]) ∧
    (Except.error () : Except Unit (Option MatchResult)) ≠ Except.ok none ∧
    [TMMethod.ccoeffNormed] ≠ ([] : List TMMethod) := by
  refine ⟨?_, by simp, by simp⟩
  simp [matchTemplateRun, matchTemplateGo, tmMethods, oversizedCorr]

/-- Witness for C2 (amended) at a concrete all-raising oracle. -/
theorem c2_no_dimension_guard_witness :
    oversizedCorr TMMethod.ccoeffNormed = Except.error () ∧
    matchTemplateRun oversizedCorr 10 10 (1/2) =
      (Except.error (), [TMMethod.ccoeffNormed]) :=
  ⟨rfl, c2_no_dimension_guard oversizedCorr 10 10 (1/2) rfl⟩

/-! ## Exceptions across the cascade (C3)

`find_template_with_fallbacks` (lines 315-348) installs no exception
handler of its own.  Only `_match_features` wraps its whole body in
`try/except: return None` (lines 195-261).  The stage bodies are
abstracted at exception level. -/

/-- The stage methods at exception level; `matchFeaturesBodyE` is the
body inside `_match_features`' `try`. -/
structure StagesE where
  matchMultiScaleE : ℚ → Except Unit (Option MatchResult)
  matchFeaturesBodyE : ℚ → Except Unit (Option MatchResult)
  matchTemplateE : ℚ → Except Unit (Option MatchResult)
  matchWithPreprocessingE : ℚ → Except Unit (Option MatchResult)

/-- `_match_features`' `try: ... except: pass; return None` wrapper. -/
def matchFeaturesCaught (body : ℚ → Except Unit (Option MatchResult))
    (c : ℚ) : Option MatchResult :=
  match body c with
  | Except.error _ => none
  | Except.ok r => r

/-- Exception-level embedding of `find_template_with_fallbacks`: stage
errors other than the feature stage's propagate, because the controller
has no try/except. -/
def findTemplateWithFallbacksE (st : StagesE) (c : ℚ) :
    Except Unit (Option MatchResult) :=
  match st.matchMultiScaleE c with
  | Except.error e => Except.error e
  | Except.ok r1 =>
    if passes r1 c then Except.ok r1
    else
      let r2 := matchFeaturesCaught st.matchFeaturesBodyE (c * (9/10))
      if passes r2 (c * (9/10)) then Except.ok r2
      else
        match st.matchTemplateE (c * (8/10)) with
        | Except.error e => Except.error e
        | Except.ok r3 =>
          if passes r3 (c * (8/10)) then Except.ok r3
          else
            match st.matchWithPreprocessingE (c * (7/10)) with
            | Except.error e => Except.error e
            | Except.ok r4 =>
              if passes r4 (c * (7/10)) then Except.ok r4
              else
                match st.matchTemplateE (1/2) with
                | Except.error e => Except.error e
                | Except.ok (some m) => Except.ok (some (annotateLowConfidence m))
                | Except.ok none => Except.ok none

/-- Stages for the C3 counterexample: the multi-scale stage raises, the
correlation stage would succeed. -/
def throwingStages : StagesE where
  matchMultiScaleE := fun _ => Except.error ()
  matchFeaturesBodyE := fun _ => Except.ok none
  matchTemplateE := fun t =>
    Except.ok (if t ≤ 9/10 then some ⟨3, 4, 10, 10, 9/10, 8, 9, "template"⟩ else none)
  matchWithPreprocessingE := fun _ => Except.ok none

/-- Counterexample to C3 as stated: an exception inside the multi-scale
stage is not caught at the controller boundary — the remaining stages do
not run (the correlation stage would have qualified) and the caller
observes the error. -/
theorem c3_counterexample :
    findTemplateWithFallbacksE throwingStages (4/5) = Except.error () := by
  simp [findTemplateWithFallbacksE, throwingStages]

/-- C3 amended: exception absorption exists only inside the Feature
Matcher stage.  A feature-stage exception is equivalent to that stage
returning none (the remaining fallbacks still run), and if the
multi-scale, correlation and preprocessing stages do not raise then no
resolve call raises, whatever the feature-stage body does; exceptions in
those other stages, by contrast, propagate (see the counterexample). -/
theorem c3_feature_exceptions_absorbed (st : StagesE) (c : ℚ)
    (h1 : ∀ t, ∃ r, st.matchMultiScaleE t = Except.ok r)
    (h3 : ∀ t, ∃ r, st.matchTemplateE t = Except.ok r)
    (h4 : ∀ t, ∃ r, st.matchWithPreprocessingE t = Except.ok r) :
    findTemplateWithFallbacksE
        { st with matchFeaturesBodyE := fun _ => Except.error () } c =
      findTemplateWithFallbacksE
        { st with matchFeaturesBodyE := fun _ => Except.ok none } c ∧
    ∃ o, findTemplateWithFallbacksE st c = Except.ok o := by
  constructor
  · simp [findTemplateWithFallbacksE, matchFeaturesCaught]
  · obtain ⟨r1, e1⟩ := h1 c
    obtain ⟨r3, e3⟩ := h3 (c * (8/10))
    obtain ⟨r5, e5⟩ := h3 (1/2)
    obtain ⟨r4, e4⟩ := h4 (c * (7/10))
    unfold findTemplateWithFallbacksE
    rw [e1]
    by_cases p1 : passes r1 c = true
    · simp [p1]
    · simp only [p1, Bool.false_eq_true, if_false]
      by_cases p2 : passes (matchFeaturesCaught st.matchFeaturesBodyE (c * (9/10))) (c * (9/10)) = true
      · simp [p2]
      · simp only [p2, Bool.false_eq_true, if_false]
        rw [e3]
        by_cases p3 : passes r3 (c * (8/10)) = true
        · simp [p3]
        · simp only [p3, Bool.false_eq_true, if_false]
          rw [e4]
          by_cases p4 : passes r4 (c * (7/10)) = true
          · simp [p4]
          · simp only [p4, Bool.false_eq_true, if_false]
            rw [e5]
            cases r5 with
            | some m => exact ⟨some (annotateLowConfidence m), rfl⟩
            | none => exact ⟨none, rfl⟩

/-- Stages for the C3 witness: a raising feature-stage body, every other
stage total. -/
def featureThrowStages : StagesE where
  matchMultiScaleE := fun _ => Except.ok none
  matchFeaturesBodyE := fun _ => Except.error ()
  matchTemplateE := fun _ => Except.ok none
  matchWithPreprocessingE := fun _ => Except.ok none

/-- Witness for C3 (amended) at concrete stages whose feature body
raises. -/
theorem c3_feature_exceptions_witness :
    (∀ t, ∃ r, featureThrowStages.matchMultiScaleE t = Except.ok r) ∧
    (findTemplateWithFallbacksE
        { featureThrowStages with matchFeaturesBodyE := fun _ => Except.error () } (4/5) =
      findTemplateWithFallbacksE
        { featureThrowStages with matchFeaturesBodyE := fun _ => Except.ok none } (4/5) ∧
    ∃ o, findTemplateWithFallbacksE featureThrowStages (4/5) = Except.ok o) :=
  ⟨fun _ => ⟨none, rfl⟩,
   c3_feature_exceptions_absorbed featureThrowStages (4/5)
     (fun _ => ⟨none, rfl⟩) (fun _ => ⟨none, rfl⟩) (fun _ => ⟨none, rfl⟩)⟩

/-! ## The Feature Matcher

`_match_features` (lines 189-261).  SIFT detection, FLANN knn-matching,
`cv2.findHomography` and `cv2.perspectiveTransform` are external
primitives, modelled by an oracle recording what they return for the
fixed frame/template of the call: the descriptor counts (none when
`detectAndCompute` returns `None`), the distance pairs of each knn match,
and — when a homography is found — the four transformed template corners
together with the estimator's inlier mask. -/

/-- The four template corners after `cv2.perspectiveTransform`. -/
structure Corners where
  c0 : ℚ × ℚ
  c1 : ℚ × ℚ
  c2 : ℚ × ℚ
  c3 : ℚ × ℚ

/-- Oracle for the external primitives used by `_match_features`. -/
structure FeatureOracle where
  des1 : Option ℕ
  des2 : Option ℕ
  knnPairs : List (List ℚ)
  homography : Option (Corners × Option (List ℕ))

/-- Lowe's ratio test on one knn pair (lines 211-215): the pair must have
exactly two members and the nearest distance must be below 0.7× the
second-nearest. -/
def goodPair (p : List ℚ) : Bool :=
  match p with
  | [d1, d2] => decide (d1 < 7/10 * d2)
  | _ => false

/-- `np.min` over the four corner coordinates. -/
def minQ4 (a b c d : ℚ) : ℚ := min (min (min a b) c) d

/-- `np.max` over the four corner coordinates. -/
def maxQ4 (a b c d : ℚ) : ℚ := max (max (max a b) c) d

/-- `inlier_ratio = np.sum(mask) / len(mask) if mask is not None else 0`
(line 247). -/
def inlierRatio (mask : Option (List ℕ)) : ℚ :=
  match mask with
  | some mk => (mk.sum : ℚ) / (mk.length : ℚ)
  | none => 0

/-- Embedding of `TemplateMatcher._match_features` (lines 189-261),
with the primitives supplied by a `FeatureOracle`. -/
def matchFeatures (o : FeatureOracle) (confidence : ℚ) : Option MatchResult :=
  match o.des1, o.des2 with
  | none, _ => none
  | _, none => none
  | some n1, some _ =>
    if n1 < 10 then none
    else
      let good := (o.knnPairs.filter goodPair).length
      if good < 10 then none
      else
        match o.homography with
        | none => none
        | some (cs, mask) =>
          let xmin := minQ4 cs.c0.1 cs.c1.1 cs.c2.1 cs.c3.1
          let xmax := maxQ4 cs.c0.1 cs.c1.1 cs.c2.1 cs.c3.1
          let ymin := minQ4 cs.c0.2 cs.c1.2 cs.c2.2 cs.c3.2
          let ymax := maxQ4 cs.c0.2 cs.c1.2 cs.c2.2 cs.c3.2
          let x := pyInt xmin
          let y := pyInt ymin
          let w := pyInt (xmax - xmin)
          let h := pyInt (ymax - ymin)
          let ratio := inlierRatio mask
          if confidence ≤ ratio then
            some { x := x, y := y, width := w, height := h
                   confidence := ratio
                   center_x := x + pyFloorDiv w 2
                   center_y := y + pyFloorDiv h 2
                   method := "feature" }
          else none

/-- Oracle for the C4 counterexample: a perfectly matching, texture-rich
pair whose homography collapses all four template corners onto the single
point (-5, -5), as a degenerate robust fit can. -/
def degenerateFeatureOracle : FeatureOracle where
  des1 := some 12
  des2 := some 500
  knnPairs := List.replicate 10 [1, 2]
  homography :=
    some (⟨(-5, -5), (-5, -5), (-5, -5), (-5, -5)⟩, some (List.replicate 10 1))

/-- Counterexample to C4: the feature matcher returns a result with
`x = -5` (bounding box outside every frame, whose columns start at 0)
and `width = 0` (violating `width > 0`). -/
theorem c4_counterexample :
    (matchFeatures degenerateFeatureOracle (4/5)).map
        (fun r => (r.x, r.width, r.confidence)) = some (-5, 0, 1) ∧
    ¬ (0 < (0 : ℤ)) ∧ (-5 : ℤ) < 0 := by
  refine ⟨?_, by norm_num, by norm_num⟩
  simp only [matchFeatures, degenerateFeatureOracle, goodPair, minQ4, maxQ4,
    inlierRatio, pyInt, List.filter_replicate]
  norm_num
  rw [show (-5 : ℚ) = ((-5 : ℤ) : ℚ) by norm_num]
  exact Int.ceil_intCast _

/-- C4 amended: the data-model invariant does not hold for every matcher
— the feature matcher refutes it (see the counterexample), since its
geometry is the axis-aligned box of the homography-transformed template
corners, not a clamped in-frame window.  What the feature matcher does
guarantee, proved here, is: a returned result's confidence is the inlier
fraction — at least the threshold, and inside [0, 1] whenever the
estimator's mask is a 0/1 vector — and its width and height are
non-negative (though possibly 0).  No in-frame or positivity property is
claimed for the other matchers: their peak locations come from the
correlation primitive, which this embedding leaves unconstrained. -/
theorem c4_feature_result_bounds (o : FeatureOracle) (c : ℚ)
    (hmask : ∀ cs mk, o.homography = some (cs, some mk) → ∀ e ∈ mk, e ≤ 1) :
    ∀ r, matchFeatures o c = some r →
      c ≤ r.confidence ∧ 0 ≤ r.confidence ∧ r.confidence ≤ 1 ∧
      0 ≤ r.width ∧ 0 ≤ r.height := by
  intro r hr
  cases hd1 : o.des1 with
  | none => simp [matchFeatures, hd1] at hr
  | some n1 =>
  cases hd2 : o.des2 with
  | none => simp [matchFeatures, hd1, hd2] at hr
  | some n2 =>
  by_cases hn1 : n1 < 10
  · simp [matchFeatures, hd1, hd2, hn1] at hr
  · by_cases hg : (o.knnPairs.filter goodPair).length < 10
    · simp [matchFeatures, hd1, hd2, hn1, hg] at hr
    · cases hh : o.homography with
      | none => simp [matchFeatures, hd1, hd2, hn1, hg, hh] at hr
      | some p =>
        obtain ⟨cs, mask⟩ := p
        by_cases hc : c ≤ inlierRatio mask
        · simp only [matchFeatures, hd1, hd2, hn1, if_false, hg, hh, hc,
            if_true, Option.some.injEq] at hr
          subst hr
          have hxle : minQ4 cs.c0.1 cs.c1.1 cs.c2.1 cs.c3.1 ≤
              maxQ4 cs.c0.1 cs.c1.1 cs.c2.1 cs.c3.1 :=
            le_trans
              (le_trans (min_le_left _ _)
                (le_trans (min_le_left _ _) (min_le_left _ _)))
              (le_trans (le_max_left _ _)
                (le_trans (le_max_left _ _) (le_max_left _ _)))
          have hyle : minQ4 cs.c0.2 cs.c1.2 cs.c2.2 cs.c3.2 ≤
              maxQ4 cs.c0.2 cs.c1.2 cs.c2.2 cs.c3.2 :=
            le_trans
              (le_trans (min_le_left _ _)
                (le_trans (min_le_left _ _) (min_le_left _ _)))
              (le_trans (le_max_left _ _)
                (le_trans (le_max_left _ _) (le_max_left _ _)))
          have hx0 : (0 : ℚ) ≤ maxQ4 cs.c0.1 cs.c1.1 cs.c2.1 cs.c3.1 -
              minQ4 cs.c0.1 cs.c1.1 cs.c2.1 cs.c3.1 := by linarith
          have hy0 : (0 : ℚ) ≤ maxQ4 cs.c0.2 cs.c1.2 cs.c2.2 cs.c3.2 -
              minQ4 cs.c0.2 cs.c1.2 cs.c2.2 cs.c3.2 := by linarith
          refine ⟨hc, ?_, ?_, ?_, ?_⟩
          · cases mask with
            | none => simp [inlierRatio]
            | some mk => exact div_nonneg (by positivity) (by positivity)
          · cases mask with
            | none => simp [inlierRatio]
            | some mk =>
              have hsum : (mk.sum : ℚ) ≤ (mk.length : ℚ) := by
                have h1 : mk.sum ≤ mk.length := by
                  have h2 := List.sum_le_card_nsmul mk 1
                    (fun e he => hmask cs mk hh e he)
                  simpa using h2
                exact_mod_cast h1
              rcases Nat.eq_zero_or_pos mk.length with hz | hp
              · have : mk = [] := List.length_eq_zero.mp hz
                subst this
                simp [inlierRatio]
              · have hlp : (0 : ℚ) < (mk.length : ℚ) := by exact_mod_cast hp
                exact div_le_one_of_le₀ hsum (le_of_lt hlp)
          · dsimp only
            simp only [pyInt, if_pos hx0]
            exact Int.floor_nonneg.mpr hx0
          · dsimp only
            simp only [pyInt, if_pos hy0]
            exact Int.floor_nonneg.mpr hy0
        · simp [matchFeatures, hd1, hd2, hn1, hg, hh, hc] at hr

/-- Oracle for the C4 witness: an in-frame square fit with full inliers. -/
def inFrameFeatureOracle : FeatureOracle where
  des1 := some 20
  des2 := some 300
  knnPairs := List.replicate 12 [1, 2]
  homography :=
    some (⟨(2, 3), (10, 3), (10, 11), (2, 11)⟩, some (List.replicate 12 1))

/-- Witness for C4 (amended) at a concrete oracle: the matcher returns
the 8×8 box at (2, 3) with confidence 1, and the amended bounds hold. -/
theorem c4_feature_bounds_witness :
    (4/5 : ℚ) ≤ (1 : ℚ) ∧ 0 ≤ (1 : ℚ) ∧ (1 : ℚ) ≤ 1 ∧
    0 ≤ (8 : ℤ) ∧ 0 ≤ (8 : ℤ) := by
  have heval : matchFeatures inFrameFeatureOracle (4/5) =
      some ⟨2, 3, 8, 8, 1, 6, 7, "feature"⟩ := by
    simp only [matchFeatures, inFrameFeatureOracle, goodPair, minQ4, maxQ4,
      inlierRatio, pyInt, pyFloorDiv, List.filter_replicate]
    norm_num
    refine ⟨by decide, by decide⟩
  have hb := c4_feature_result_bounds inFrameFeatureOracle (4/5)
    (fun cs mk hmk e he => by
      cases hmk
      exact le_of_eq (List.eq_of_mem_replicate he))
    ⟨2, 3, 8, 8, 1, 6, 7, "feature"⟩ heval
  simpa using hb

/-- Oracle for the C5 counterexample: the frame yields only 3
descriptors (fewer than 10), the template 10. -/
def fewFrameDescriptorsOracle : FeatureOracle where
  des1 := some 10
  des2 := some 3
  knnPairs := List.replicate 10 [1, 2]
  homography :=
    some (⟨(0, 0), (10, 0), (10, 10), (0, 10)⟩, some (List.replicate 10 1))

/-- Counterexample to C5: with only 3 frame descriptors the guard does
not fire — `_match_features` checks `len(des1) < 10` for the template
only — and descriptor matching proceeds, here all the way to a returned
result, instead of returning none. -/
theorem c5_counterexample :
    fewFrameDescriptorsOracle.des2 = some 3 ∧ 3 < 10 ∧
    (matchFeatures fewFrameDescriptorsOracle (4/5)).isSome = true := by
  refine ⟨rfl, by norm_num, ?_⟩
  simp only [matchFeatures, fewFrameDescriptorsOracle, goodPair, minQ4, maxQ4,
    inlierRatio, pyInt, List.filter_replicate]
  norm_num

/-- C5 amended: `_match_features` returns none before any descriptor
matching iff the template's descriptors are missing, the frame's
descriptors are missing, or the template yields fewer than 10
descriptors; the frame's descriptor count is never compared against 10.
The abort happens before matching: under the guard the outcome is none
whatever the knn-matching and homography oracles return. -/
theorem c5_template_descriptor_guard (o : FeatureOracle) (c : ℚ)
    (h : o.des1 = none ∨ o.des2 = none ∨ ∃ n, o.des1 = some n ∧ n < 10) :
    ∀ knn hg,
      matchFeatures { o with knnPairs := knn, homography := hg } c = none := by
  intro knn hg
  rcases h with h | h | ⟨n, hn, hlt⟩
  · simp [matchFeatures, h]
  · cases hd1 : o.des1 <;> simp [matchFeatures, h, hd1]
  · cases hd2 : o.des2 <;> simp [matchFeatures, hn, hd2, hlt]

/-- Oracle for the C5 witness: the template yields 5 descriptors. -/
def fewTemplateDescriptorsOracle : FeatureOracle where
  des1 := some 5
  des2 := some 400
  knnPairs := []
  homography := none

/-- Witness for C5 (amended): with 5 template descriptors the matcher
returns none even under oracles that would otherwise let it succeed. -/
theorem c5_guard_witness :
    (fewTemplateDescriptorsOracle.des1 = none ∨
     fewTemplateDescriptorsOracle.des2 = none ∨
     ∃ n, fewTemplateDescriptorsOracle.des1 = some n ∧ n < 10) ∧
    matchFeatures { fewTemplateDescriptorsOracle with
        knnPairs := List.replicate 10 [1, 2]
        homography :=
          some (⟨(0, 0), (10, 0), (10, 10), (0, 10)⟩,
            some (List.replicate 10 1)) } (4/5) = none :=
  ⟨Or.inr (Or.inr ⟨5, rfl, by norm_num⟩),
   c5_template_descriptor_guard fewTemplateDescriptorsOracle (4/5)
     (Or.inr (Or.inr ⟨5, rfl, by norm_num⟩))
     (List.replicate 10 [1, 2])
     (some (⟨(0, 0), (10, 0), (10, 10), (0, 10)⟩,
       some (List.replicate 10 1)))⟩

/-! ## The Text Resolver

`find_text` (lines 399-483).  The OCR engine (`pytesseract.image_to_data`)
is an external collaborator: its output is modelled as a list of word
tokens with text, raw percent confidence and bounding box.
`difflib.SequenceMatcher(None, a, b).ratio()` is a library primitive,
modelled as an oracle `ratio`.  Python strings are modelled as `List
Char` with ASCII case mapping. -/

/-- An OCR word token from `pytesseract.image_to_data` as `find_text`
reads it: `conf` is the raw percent value of `data['conf'][i]`. -/
structure OcrToken where
  text : List Char
  conf : ℚ
  left : ℤ
  top : ℤ
  width : ℤ
  height : ℤ

/-- Python `str.lower()` (ASCII case mapping, the range OCR produces). -/
def pyLower (s : List Char) : List Char := s.map Char.toLower

/-- Python `str.upper()` (ASCII case mapping). -/
def pyUpper (s : List Char) : List Char := s.map Char.toUpper

/-- Python `str.strip()`: remove leading and trailing whitespace. -/
def pyStrip (s : List Char) : List Char :=
  (((s.dropWhile Char.isWhitespace).reverse).dropWhile Char.isWhitespace).reverse

/-- Python `a in b` on strings: substring (infix) test. -/
def pySubstr (a b : List Char) : Bool := decide (a <:+: b)

/-- The similarity of one cleaned token text against the cleaned target
(lines 441-448): 1.0 when the target is a substring of the token text,
0.95 when the token text is a substring of the target, the
sequence-matcher ratio otherwise. -/
def tokenSimilarity (ratio : List Char → List Char → ℚ)
    (targetLower textClean : List Char) : ℚ :=
  if pySubstr targetLower textClean then 1
  else if pySubstr textClean targetLower then 19/20
  else ratio targetLower textClean

/-- One iteration of the token loop of `find_text` (lines 430-458); the
accumulator is `(best_match, best_similarity)` where `best_match` holds
the winning token and its similarity. -/
def ftStep (ratio : List Char → List Char → ℚ) (targetLower : List Char)
    (confidence fuzzyThreshold : ℚ)
    (acc : Option (OcrToken × ℚ) × ℚ) (tok : OcrToken) :
    Option (OcrToken × ℚ) × ℚ :=
  if tok.text = [] ∨ pyStrip tok.text = [] then acc
  else
    let textClean := pyLower (pyStrip tok.text)
    let ocrConfidence := tok.conf / 100
    if ocrConfidence < confidence then acc
    else
      let similarity := tokenSimilarity ratio targetLower textClean
      if fuzzyThreshold ≤ similarity ∧ acc.2 < similarity then
        (some (tok, similarity), similarity)
      else acc

/-- Embedding of `TemplateMatcher.find_text` (lines 399-483): clean the
target, scan the tokens tracking the best fuzzy match, and blend
similarity with OCR confidence as `0.7·similarity + 0.3·ocr_confidence`
(line 469). -/
def findText (tokens : List OcrToken) (ratio : List Char → List Char → ℚ)
    (targetText : List Char) (confidence fuzzyThreshold : ℚ) :
    Option MatchResult :=
  let targetLower := pyStrip (pyLower targetText)
  match (tokens.foldl (ftStep ratio targetLower confidence fuzzyThreshold)
      (none, 0)).1 with
  | none => none
  | some (tok, similarity) =>
    some { x := tok.left, y := tok.top
           width := tok.width, height := tok.height
           confidence := similarity * (7/10) + (tok.conf / 100) * (3/10)
           center_x := tok.left + pyFloorDiv tok.width 2
           center_y := tok.top + pyFloorDiv tok.height 2
           method := "ocr_fuzzy(" ++ pyFormatFixed 2 similarity ++ ")" }

/-- A sequence-matcher oracle for concrete runs; never consulted when a
substring case applies. -/
def zeroRatio : List Char → List Char → ℚ := fun _ _ => 0

/-- The single OCR token of the C7 scenario: text "Login", confidence
90 %, box (20, 50, 40, 12). -/
def loginToken : OcrToken where
  text := ['L', 'o', 'g', 'i', 'n']
  conf := 90
  left := 20
  top := 50
  width := 40
  height := 12

theorem pyFormatFixed_one : pyFormatFixed 2 1 = "1.00" := by
  have h1 : roundHalfEven ((1 : ℚ) * (10 : ℚ) ^ 2) = 100 := by
    have hfloor : ⌊(1 : ℚ) * (10 : ℚ) ^ 2⌋ = 100 := by norm_num
    simp only [roundHalfEven, hfloor]
    norm_num
  simp only [pyFormatFixed, h1]
  rfl

/-- Evaluation of `find_text` on the C7 scenario, for every ratio oracle:
"log" is a substring of "login", so the similarity is the 1.0 case and
the blended confidence is `0.7·1.0 + 0.3·0.9 = 0.97`. -/
theorem findText_login_eval (ratio : List Char → List Char → ℚ) :
    findText [loginToken] ratio ['l', 'o', 'g'] (4/5) (3/5) =
      some ⟨20, 50, 40, 12, 97/100, 40, 56, "ocr_fuzzy(1.00)"⟩ := by
  have hne : ¬ (loginToken.text = [] ∨ pyStrip loginToken.text = []) := by decide
  have hconf : ¬ (loginToken.conf / 100 < (4/5 : ℚ)) := by norm_num [loginToken]
  have hsub : pySubstr (pyStrip (pyLower ['l', 'o', 'g']))
      (pyLower (pyStrip loginToken.text)) = true := by decide
  simp only [findText, List.foldl_cons, List.foldl_nil, ftStep, tokenSimilarity]
  rw [if_neg hne, if_neg hconf, if_pos hsub]
  rw [if_pos (show (3/5 : ℚ) ≤ 1 ∧ (0 : ℚ) < 1 from ⟨by norm_num, by norm_num⟩)]
  simp only [loginToken, pyFormatFixed_one, pyFloorDiv]
  norm_num
  refine ⟨by decide, by decide, rfl⟩

/-- Counterexample to C7 as stated: the similarity of target "log"
against token "Login" is the 1.0 full-substring case (the target is a
substring of the token), not 0.95, and the returned confidence is
`0.7·1.0 + 0.3·0.9 = 0.97 ≠ 0.7·0.95 + 0.3·0.9`. -/
theorem c7_counterexample :
    (findText [loginToken] zeroRatio ['l', 'o', 'g'] (4/5) (3/5)).map
        (fun r => r.confidence) = some (97/100) ∧
    (97/100 : ℚ) ≠ (19/20) * (7/10) + (9/10) * (3/10) := by
  refine ⟨?_, by norm_num⟩
  rw [findText_login_eval zeroRatio]
  rfl

/-- C7 amended: on tokens `[("Login", conf 0.9)]` and target "log" (OCR
threshold 0.8, fuzzy threshold 0.6), the similarity is the 1.0 case —
the target is a substring of the token text — and the result is the
token's box with confidence `0.7·1.0 + 0.3·0.9 = 0.97`, whatever the
sequence-matcher oracle (it is never consulted). -/
theorem c7_login_log_similarity (ratio : List Char → List Char → ℚ) :
    findText [loginToken] ratio ['l', 'o', 'g'] (4/5) (3/5) =
      some ⟨20, 50, 40, 12, 97/100, 40, 56, "ocr_fuzzy(1.00)"⟩ :=
  findText_login_eval ratio

/-! ### Case and whitespace insensitivity of the target (C10) -/

theorem toNat_ofNat_valid (n : ℕ) (h : n < 55296) :
    (Char.ofNat n).toNat = n := by
  have hv : n.isValidChar := Or.inl h
  rw [Char.ofNat, dif_pos hv]
  rfl

theorem toLower_toUpper (c : Char) : (Char.toUpper c).toLower = c.toLower := by
  simp only [Char.toUpper, Char.toLower]
  by_cases hl : c.toNat ≥ 97 ∧ c.toNat ≤ 122
  · rw [if_pos hl]
    have ht : (Char.ofNat (c.toNat - 32)).toNat = c.toNat - 32 :=
      toNat_ofNat_valid _ (by omega)
    rw [ht]
    rw [if_pos (by omega), if_neg (by omega)]
    have h32 : c.toNat - 32 + 32 = c.toNat := by omega
    rw [h32, Char.ofNat_toNat]
  · rw [if_neg hl]

theorem pyLower_pyUpper (s : List Char) : pyLower (pyUpper s) = pyLower s := by
  simp only [pyLower, pyUpper, List.map_map]
  exact List.map_congr_left (fun c _ => toLower_toUpper c)

theorem dropWhile_replicate_space (n : ℕ) (l : List Char) :
    List.dropWhile Char.isWhitespace (List.replicate n ' ' ++ l) =
      List.dropWhile Char.isWhitespace l := by
  induction n with
  | zero => rfl
  | succ k ih => simp [List.replicate_succ, List.dropWhile_cons]

theorem pyStrip_prefix_spaces (n : ℕ) (l : List Char) :
    pyStrip (List.replicate n ' ' ++ l) = pyStrip l := by
  unfold pyStrip
  rw [dropWhile_replicate_space]

theorem pyStrip_suffix_spaces (l : List Char) (m : ℕ) :
    pyStrip (l ++ List.replicate m ' ') = pyStrip l := by
  unfold pyStrip
  rw [List.dropWhile_append]
  by_cases h : (List.dropWhile Char.isWhitespace l).isEmpty
  · rw [if_pos h]
    have h2 : List.dropWhile Char.isWhitespace (List.replicate m ' ') = [] := by
      induction m with
      | zero => rfl
      | succ k ih => simp [List.replicate_succ, List.dropWhile_cons]
    have h3 : List.dropWhile Char.isWhitespace l = [] := by
      cases hx : List.dropWhile Char.isWhitespace l
      · rfl
      · rw [hx] at h
        simp at h
    rw [h2, h3]
  · rw [if_neg h]
    rw [List.reverse_append, List.reverse_replicate]
    rw [dropWhile_replicate_space]

/-- C10: text resolution is case- and surrounding-whitespace-insensitive
in the target: `find_text` normalises the target by lowercasing and
stripping, so two targets with the same normal form give identical
results; in particular uppercasing the target, or padding it with any
amount of leading/trailing spaces, changes nothing. -/
theorem c10_case_whitespace_insensitive (tokens : List OcrToken)
    (ratio : List Char → List Char → ℚ) (c f : ℚ) :
    (∀ t₁ t₂ : List Char, pyStrip (pyLower t₁) = pyStrip (pyLower t₂) →
      findText tokens ratio t₁ c f = findText tokens ratio t₂ c f) ∧
    (∀ t : List Char,
      findText tokens ratio (pyUpper t) c f = findText tokens ratio t c f) ∧
    (∀ (t : List Char) (n m : ℕ),
      findText tokens ratio
          (List.replicate n ' ' ++ t ++ List.replicate m ' ') c f =
        findText tokens ratio t c f) := by
  have key : ∀ t₁ t₂ : List Char, pyStrip (pyLower t₁) = pyStrip (pyLower t₂) →
      findText tokens ratio t₁ c f = findText tokens ratio t₂ c f := by
    intro t₁ t₂ h
    simp only [findText, h]
  refine ⟨key, ?_, ?_⟩
  · intro t
    exact key _ _ (by rw [pyLower_pyUpper])
  · intro t n m
    refine key _ _ ?_
    have hsp : Char.toLower ' ' = ' ' := by decide
    simp only [pyLower, List.map_append, List.map_replicate, hsp]
    rw [List.append_assoc, pyStrip_prefix_spaces, pyStrip_suffix_spaces]

/-- Witness for C10 at the concrete token list `[loginToken]`: target
"LOG" behaves exactly like target "log". -/
theorem c10_case_insensitive_witness :
    pyStrip (pyLower ['L', 'O', 'G']) = pyStrip (pyLower ['l', 'o', 'g']) ∧
    findText [loginToken] zeroRatio ['L', 'O', 'G'] (4/5) (3/5) =
      findText [loginToken] zeroRatio ['l', 'o', 'g'] (4/5) (3/5) :=
  ⟨by decide,
   (c10_case_whitespace_insensitive [loginToken] zeroRatio (4/5) (3/5)).1
     ['L', 'O', 'G'] ['l', 'o', 'g'] (by decide)⟩

/-! ## The Vision Cache

`VisionCache` (lines 587-634) keeps two dicts, `cache : path → image`
and `access_times : path → float`, always updated together on the same
keys.  They are modelled as a single insertion-ordered association list
(Python dicts iterate in insertion order, and assigning to an existing
key keeps its position).  `time.time()` is passed in explicitly as
`now`; `Path(...).exists()` plus `cv2.imread` is modelled by the
caller-supplied `load : Option α` (some value exactly when the file
exists and decodes). -/

/-- One cache entry: key, decoded template, last access time. -/
structure CacheEntry (α : Type) where
  key : String
  val : α
  access : ℚ
deriving Repr, DecidableEq

/-- The `VisionCache` state (lines 590-594). -/
structure VisionCache (α : Type) where
  entries : List (CacheEntry α)
  maxSize : ℕ
  ttl : ℚ
deriving Repr

/-- `self.access_times[image_path] = current_time` on an existing key:
in-place update, position preserved. -/
def refreshEntry (l : List (CacheEntry α)) (k : String) (now : ℚ) :
    List (CacheEntry α) :=
  l.map (fun e => if e.key == k then { e with access := now } else e)

/-- `del self.cache[key]; del self.access_times[key]`. -/
def removeKey (l : List (CacheEntry α)) (k : String) : List (CacheEntry α) :=
  l.filter (fun e => e.key != k)

/-- `min(self.access_times.keys(), key=lambda k: self.access_times[k])`
(line 623): Python's `min` scans in insertion order and keeps the current
candidate on ties, so it returns the first entry attaining the minimal
access time. -/
def oldestKey (l : List (CacheEntry α)) : Option (CacheEntry α) :=
  match l with
  | [] => none
  | e :: es => some (es.foldl (fun b x => if x.access < b.access then x else b) e)

/-- One pass of the eviction loop body (lines 623-625). -/
def evictOnce (l : List (CacheEntry α)) : List (CacheEntry α) :=
  match oldestKey l with
  | none => l
  | some e => removeKey l e.key

/-- `e` is the first entry of `l` attaining the minimal access time:
everything before it is strictly younger-accessed, everything after it
is at least as old.  This is the eviction tie-break the spec demands. -/
def IsFirstMin (l : List (CacheEntry α)) (e : CacheEntry α) : Prop :=
  ∃ l₁ l₂, l = l₁ ++ e :: l₂ ∧ (∀ x ∈ l₁, e.access < x.access) ∧
    (∀ x ∈ l₂, e.access ≤ x.access)

theorem foldl_min_isFirstMin (as : List (CacheEntry α)) :
    ∀ b : CacheEntry α,
      IsFirstMin (b :: as)
        (as.foldl (fun b x => if x.access < b.access then x else b) b) := by
  induction as with
  | nil =>
    intro b
    exact ⟨[], [], rfl, by simp, by simp⟩
  | cons a as ih =>
    intro b
    simp only [List.foldl_cons]
    by_cases h : a.access < b.access
    · rw [if_pos h]
      obtain ⟨l₁, l₂, hdec, hlt, hle⟩ := ih a
      set r := as.foldl (fun b x => if x.access < b.access then x else b) a with hr
      have hra : r.access ≤ a.access := by
        cases l₁ with
        | nil =>
          injection hdec with h1 h2
          rw [← h1]
        | cons c l₁' =>
          rw [List.cons_append] at hdec
          injection hdec with h1 h2
          exact le_of_lt (hlt a (by rw [h1]; exact List.mem_cons_self c l₁'))
      refine ⟨b :: l₁, l₂, by rw [List.cons_append, ← hdec], ?_, hle⟩
      intro x hx
      rcases List.mem_cons.mp hx with rfl | hx'
      · exact lt_of_le_of_lt hra h
      · exact hlt x hx'
    · rw [if_neg h]
      obtain ⟨l₁, l₂, hdec, hlt, hle⟩ := ih b
      set r := as.foldl (fun b x => if x.access < b.access then x else b) b with hr
      cases l₁ with
      | nil =>
        injection hdec with h1 h2
        refine ⟨[], a :: as, by rw [List.nil_append, ← h1], by simp, ?_⟩
        intro x hx
        rcases List.mem_cons.mp hx with rfl | hx'
        · rw [← h1]
          exact not_lt.mp h
        · exact hle x (h2 ▸ hx')
      | cons c l₁' =>
        rw [List.cons_append] at hdec
        injection hdec with h1 h2
        refine ⟨c :: a :: l₁', l₂, ?_, ?_, hle⟩
        · rw [h1, h2]
          simp [List.cons_append]
        · intro x hx
          rcases List.mem_cons.mp hx with rfl | hx'
          · exact hlt x (List.mem_cons_self x l₁')
          · rcases List.mem_cons.mp hx' with rfl | hx''
            · have hrc : r.access < c.access := hlt c (List.mem_cons_self c l₁')
              have hcb : c.access = b.access := by rw [← h1]
              rw [hcb] at hrc
              exact lt_of_lt_of_le hrc (not_lt.mp h)
            · exact hlt x (List.mem_cons_of_mem c hx'')

/-- `oldestKey` returns exactly the first entry with globally minimal
access time. -/
theorem oldestKey_isFirstMin (l : List (CacheEntry α)) (hne : l ≠ []) :
    ∃ e, oldestKey l = some e ∧ IsFirstMin l e := by
  cases l with
  | nil => exact absurd rfl hne
  | cons a as =>
    exact ⟨_, rfl, foldl_min_isFirstMin as a⟩

theorem mem_of_isFirstMin {l : List (CacheEntry α)} {e : CacheEntry α}
    (h : IsFirstMin l e) : e ∈ l := by
  obtain ⟨l₁, l₂, rfl, _, _⟩ := h
  exact List.mem_append_right l₁ (List.mem_cons_self e l₂)

theorem length_removeKey_lt (l : List (CacheEntry α)) (e : CacheEntry α)
    (hmem : e ∈ l) : (removeKey l e.key).length < l.length := by
  induction l with
  | nil => cases hmem
  | cons a as ih =>
    rcases List.mem_cons.mp hmem with rfl | hmem'
    · have hb : (e.key != e.key) = false := by simp
      have h1 : removeKey (e :: as) e.key = removeKey as e.key := by
        simp [removeKey, List.filter_cons, hb]
      rw [h1]
      have h2 : (removeKey as e.key).length ≤ as.length := by
        simpa [removeKey] using
          List.length_filter_le (fun x => x.key != e.key) as
      simp only [List.length_cons]
      omega
    · by_cases hb : (a.key != e.key) = true
      · have h1 : removeKey (a :: as) e.key = a :: removeKey as e.key := by
          simp [removeKey, List.filter_cons, hb]
        rw [h1]
        simpa using ih hmem'
      · have hb' : (a.key != e.key) = false := by simpa using hb
        have h1 : removeKey (a :: as) e.key = removeKey as e.key := by
          simp [removeKey, List.filter_cons, hb']
        rw [h1]
        have := ih hmem'
        simp only [List.length_cons]
        omega

theorem length_evictOnce_lt (l : List (CacheEntry α)) (hne : l ≠ []) :
    (evictOnce l).length < l.length := by
  obtain ⟨e, hoe, hfm⟩ := oldestKey_isFirstMin l hne
  have h1 : evictOnce l = removeKey l e.key := by
    simp only [evictOnce, hoe]
  rw [h1]
  exact length_removeKey_lt l e (mem_of_isFirstMin hfm)

/-- The `while len(cache) >= max_size` eviction loop of `_add_to_cache`
(lines 622-625).  On an empty dict with `max_size = 0` Python's `min`
would raise `ValueError`; the loop here also stops on an empty list,
which agrees with Python everywhere the class is usable
(`max_size ≥ 1`). -/
def evictWhile (maxSize : ℕ) (l : List (CacheEntry α)) : List (CacheEntry α) :=
  if _h : maxSize ≤ l.length ∧ 0 < l.length then
    evictWhile maxSize (evictOnce l)
  else l
termination_by l.length
decreasing_by exact length_evictOnce_lt l (List.length_pos.mp _h.2)

/-- Python dict assignment `d[k] = v` applied to both dicts at once:
replaces in place when the key exists (keeping its position), appends
otherwise. -/
def dictInsert (l : List (CacheEntry α)) (k : String) (v : α) (now : ℚ) :
    List (CacheEntry α) :=
  if (l.find? (fun e => e.key == k)).isSome then
    l.map (fun e => if e.key == k then ⟨k, v, now⟩ else e)
  else l ++ [⟨k, v, now⟩]

/-- Embedding of `VisionCache._add_to_cache` (lines 619-628): evict
while full, then insert. -/
def addToCache (c : VisionCache α) (k : String) (v : α) (now : ℚ) :
    VisionCache α :=
  { c with entries := dictInsert (evictWhile c.maxSize c.entries) k v now }

/-- The load-and-cache tail of `get_template` (lines 610-617): `load` is
some decoded template exactly when the path exists and `cv2.imread`
decodes it. -/
def loadPath (c : VisionCache α) (load : Option α) (k : String) (now : ℚ) :
    Option α × VisionCache α :=
  match load with
  | some v => (some v, addToCache c k v now)
  | none => (none, c)

/-- Embedding of `VisionCache.get_template` (lines 596-617): serve a
within-TTL hit after refreshing its access time; purge an expired entry
and fall through to the load path; load and cache on a miss. -/
def getTemplate (c : VisionCache α) (load : Option α) (k : String)
    (now : ℚ) : Option α × VisionCache α :=
  match c.entries.find? (fun e => e.key == k) with
  | some e =>
    if now - e.access < c.ttl then
      (some e.val, { c with entries := refreshEntry c.entries k now })
    else
      loadPath { c with entries := removeKey c.entries k } load k now
  | none => loadPath c load k now

/-- One `get_template` call: its key, the loader's answer for the key at
that moment, and the `time.time()` instant. -/
structure CacheOp (α : Type) where
  key : String
  load : Option α
  now : ℚ

/-- A cache after a sequence of `get_template` calls. -/
def runOps (c : VisionCache α) (ops : List (CacheOp α)) : VisionCache α :=
  ops.foldl (fun s op => (getTemplate s op.load op.key op.now).2) c

/-- The freshly constructed cache (lines 590-594). -/
def emptyCache (α : Type) (maxSize : ℕ) (ttl : ℚ) : VisionCache α :=
  ⟨[], maxSize, ttl⟩

theorem evictWhile_length_lt (m : ℕ) (hm : 1 ≤ m) :
    ∀ (n : ℕ) (l : List (CacheEntry α)), l.length ≤ n →
      (evictWhile m l).length < m := by
  intro n
  induction n with
  | zero =>
    intro l hl
    have hnil : l = [] := List.length_eq_zero.mp (Nat.le_zero.mp hl)
    subst hnil
    rw [evictWhile]
    simp
    omega
  | succ k ih =>
    intro l hl
    rw [evictWhile]
    split
    · next h =>
      apply ih
      have := length_evictOnce_lt l (List.length_pos.mp h.2)
      omega
    · next h =>
      push_neg at h
      rcases Nat.lt_or_ge l.length m with hlt | hge
      · exact hlt
      · have hnil : l.length = 0 := Nat.le_zero.mp (h hge)
        omega

theorem length_dictInsert_le (l : List (CacheEntry α)) (k : String) (v : α)
    (now : ℚ) : (dictInsert l k v now).length ≤ l.length + 1 := by
  unfold dictInsert
  split
  · simp
  · simp

theorem getTemplate_entries_length (c : VisionCache α) (load : Option α)
    (k : String) (now : ℚ) (hm : 1 ≤ c.maxSize)
    (hlen : c.entries.length ≤ c.maxSize) :
    (getTemplate c load k now).2.entries.length ≤ c.maxSize := by
  have hload : ∀ c' : VisionCache α, c'.maxSize = c.maxSize →
      c'.entries.length ≤ c.maxSize →
      (loadPath c' load k now).2.entries.length ≤ c.maxSize := by
    intro c' hms hlen'
    cases load with
    | some v =>
      simp only [loadPath, addToCache]
      have h1 := evictWhile_length_lt c'.maxSize (hms ▸ hm)
        c'.entries.length c'.entries (le_refl _)
      have h2 := length_dictInsert_le (evictWhile c'.maxSize c'.entries) k v now
      omega
    | none => simpa [loadPath] using hlen'
  cases hfind : c.entries.find? (fun e => e.key == k) with
  | some e =>
    by_cases hv : now - e.access < c.ttl
    · simp only [getTemplate, hfind]
      rw [if_pos hv]
      simpa [refreshEntry] using hlen
    · simp only [getTemplate, hfind]
      rw [if_neg hv]
      apply hload
      · rfl
      · have h4 : (removeKey c.entries k).length ≤ c.entries.length := by
          simpa [removeKey] using
            List.length_filter_le (fun e => e.key != k) c.entries
        dsimp only
        omega
  | none =>
    simp only [getTemplate, hfind]
    exact hload c rfl hlen

theorem getTemplate_maxSize (c : VisionCache α) (load : Option α)
    (k : String) (now : ℚ) :
    (getTemplate c load k now).2.maxSize = c.maxSize := by
  cases hfind : c.entries.find? (fun e => e.key == k) with
  | some e =>
    by_cases hv : now - e.access < c.ttl
    · simp only [getTemplate, hfind]
      rw [if_pos hv]
    · simp only [getTemplate, hfind]
      rw [if_neg hv]
      cases load <;> simp [loadPath, addToCache]
  | none =>
    simp only [getTemplate, hfind]
    cases load <;> simp [loadPath, addToCache]

theorem runOps_length_le (α : Type) (m : ℕ) (hm : 1 ≤ m)
    (ops : List (CacheOp α)) :
    ∀ c : VisionCache α, c.maxSize = m → c.entries.length ≤ m →
      (runOps c ops).entries.length ≤ m := by
  induction ops with
  | nil =>
    intro c _ h3
    exact h3
  | cons op ops ih =>
    intro c h1 h3
    have hstep := getTemplate_entries_length c op.load op.key op.now
      (h1 ▸ hm) (h1 ▸ h3)
    have hms := getTemplate_maxSize c op.load op.key op.now
    simp only [runOps, List.foldl_cons]
    exact ih _ (hms.trans h1) (h1 ▸ hstep)

/-- C8: with a positive capacity `m`, (i) no sequence of `get_template`
operations starting from the empty cache ever leaves more than `m`
entries; (ii) the eviction step always removes the first entry attaining
the globally minimal last-access time (first in insertion order on ties),
never an arbitrary one; and (iii) a within-TTL hit rewrites the hit
entry's last-access time to the access instant in place (`refreshEntry`),
which is what subsequent evictions then compare. -/
theorem c8_cache_capacity_lru_refresh (α : Type) (m : ℕ) (hm : 1 ≤ m)
    (ttl : ℚ) (ops : List (CacheOp α)) :
    (runOps (emptyCache α m ttl) ops).entries.length ≤ m ∧
    (∀ l : List (CacheEntry α), l ≠ [] →
      ∃ e, oldestKey l = some e ∧ IsFirstMin l e ∧
        evictOnce l = removeKey l e.key) ∧
    (∀ (c : VisionCache α) (load : Option α) (k : String) (now : ℚ)
        (e : CacheEntry α),
      c.entries.find? (fun x => x.key == k) = some e →
      now - e.access < c.ttl →
      getTemplate c load k now =
        (some e.val, { c with entries := refreshEntry c.entries k now })) := by
  refine ⟨runOps_length_le α m hm ops (emptyCache α m ttl) rfl
    (by simp [emptyCache]), ?_, ?_⟩
  · intro l hne
    obtain ⟨e, hoe, hfm⟩ := oldestKey_isFirstMin l hne
    exact ⟨e, hoe, hfm, by simp only [evictOnce, hoe]⟩
  · intro c load k now e hfind hvalid
    simp only [getTemplate, hfind]
    rw [if_pos hvalid]

/-- Witness for C8 at capacity 2, TTL 60 and a concrete three-key
operation sequence that forces an eviction. -/
theorem c8_cache_witness :
    (1 ≤ 2) ∧
    ((runOps (emptyCache ℕ 2 60)
        [⟨"a", some 1, 0⟩, ⟨"b", some 2, 1⟩, ⟨"c", some 3, 2⟩]).entries.length ≤ 2 ∧
    (∀ l : List (CacheEntry ℕ), l ≠ [] →
      ∃ e, oldestKey l = some e ∧ IsFirstMin l e ∧
        evictOnce l = removeKey l e.key) ∧
    (∀ (c : VisionCache ℕ) (load : Option ℕ) (k : String) (now : ℚ)
        (e : CacheEntry ℕ),
      c.entries.find? (fun x => x.key == k) = some e →
      now - e.access < c.ttl →
      getTemplate c load k now =
        (some e.val, { c with entries := refreshEntry c.entries k now }))) :=
  ⟨by norm_num,
   c8_cache_capacity_lru_refresh ℕ 2 (by norm_num) 60
     [⟨"a", some 1, 0⟩, ⟨"b", some 2, 1⟩, ⟨"c", some 3, 2⟩]⟩

theorem find?_removeKey (l : List (CacheEntry α)) (k : String) :
    (removeKey l k).find? (fun e => e.key == k) = none := by
  induction l with
  | nil => rfl
  | cons a as ih =>
    by_cases h : (a.key == k) = true
    · have hb : (a.key != k) = false := by simp [bne, h]
      have h1 : removeKey (a :: as) k = removeKey as k := by
        simp [removeKey, List.filter_cons, hb]
      rw [h1]
      exact ih
    · have hb : (a.key != k) = true := by
        simpa [bne] using h
      have h1 : removeKey (a :: as) k = a :: removeKey as k := by
        simp [removeKey, List.filter_cons, hb]
      have hfalse : (a.key == k) = false := by simpa using h
      rw [h1]
      simp [List.find?_cons, hfalse, ih]

/-- C9: when the entry held for a key was last accessed more than TTL
ago, the next `get_template` on that key does not serve it: the call
behaves exactly as the load path applied to the cache with the expired
entry already purged, its returned value is exactly the loader's answer
(a miss when the loader yields nothing — the held pixel data is never
returned), and the purged key is gone from the entries handed onward. -/
theorem c9_ttl_expiry_miss (c : VisionCache α) (load : Option α)
    (k : String) (now : ℚ) (e : CacheEntry α)
    (hfind : c.entries.find? (fun x => x.key == k) = some e)
    (hexp : c.ttl < now - e.access) :
    (getTemplate c load k now).1 = load ∧
    getTemplate c load k now =
      loadPath { c with entries := removeKey c.entries k } load k now ∧
    (removeKey c.entries k).find? (fun x => x.key == k) = none := by
  have hnv : ¬ (now - e.access < c.ttl) := by linarith
  refine ⟨?_, ?_, find?_removeKey c.entries k⟩
  · simp only [getTemplate, hfind]
    rw [if_neg hnv]
    cases load <;> simp [loadPath]
  · simp only [getTemplate, hfind]
    rw [if_neg hnv]

/-- The one-entry cache for the C9 witness: key "a" last accessed at
time 0, TTL 60, queried at time 100 with a failing loader. -/
def staleCache : VisionCache ℕ := ⟨[⟨"a", 7, 0⟩], 100, 60⟩

/-- Witness for C9: the expired entry is not served (the call returns
the loader's `none`) and is purged. -/
theorem c9_ttl_expiry_witness :
    staleCache.entries.find? (fun x => x.key == "a") = some ⟨"a", 7, 0⟩ ∧
    staleCache.ttl < 100 - (0 : ℚ) ∧
    ((getTemplate staleCache none "a" 100).1 = none ∧
     getTemplate staleCache none "a" 100 =
       loadPath { staleCache with entries := removeKey staleCache.entries "a" }
         none "a" 100 ∧
     (removeKey staleCache.entries "a").find? (fun x => x.key == "a") = none) :=
  ⟨rfl, by norm_num [staleCache],
   c9_ttl_expiry_miss staleCache none "a" 100 ⟨"a", 7, 0⟩ rfl
     (by norm_num [staleCache])⟩

/-! ## The Preprocessing Matcher and the stage post-conditions

`_match_with_preprocessing` (lines 350-397) loops over five transforms,
each attempt wrapped in its own `try/except: continue`.  The transform
plus correlation plus peak extraction for one technique is an oracle
from the technique to either an error (absorbed by the per-technique
handler) or the processed template shape with the correlation peak.
The lemmas then show each concrete stage embedding satisfies the
`WellBehaved` post-condition assumed by the C1 theorem. -/

/-- The five preprocessing techniques (lines 361-367), in loop order. -/
inductive PreprocMethod where
  | original
  | blur
  | threshold
  | edges
  | morphology
deriving Repr, DecidableEq

/-- The technique list of `_match_with_preprocessing`. -/
def preprocMethods : List PreprocMethod :=
  [PreprocMethod.original, PreprocMethod.blur, PreprocMethod.threshold,
   PreprocMethod.edges, PreprocMethod.morphology]

/-- The `method_name` tag of each technique. -/
def ppName : PreprocMethod → String
  | PreprocMethod.original => "original"
  | PreprocMethod.blur => "blur"
  | PreprocMethod.threshold => "threshold"
  | PreprocMethod.edges => "edges"
  | PreprocMethod.morphology => "morphology"

/-- One loop iteration of `_match_with_preprocessing` (lines 372-395):
an oracle error models an exception in that technique, caught by the
per-technique handler (`except: continue`); otherwise the oracle yields
the processed template shape `(h, w)`, the peak value and peak location,
and the best-tracking test is `max_val > best_confidence and max_val >=
confidence` (line 381). -/
def ppStep (res : PreprocMethod → Except Unit ((ℕ × ℕ) × ℚ × (ℤ × ℤ)))
    (confidence : ℚ) (acc : Option MatchResult × ℚ) (mth : PreprocMethod) :
    Option MatchResult × ℚ :=
  match res mth with
  | Except.error _ => acc
  | Except.ok d =>
    if acc.2 < d.2.1 ∧ confidence ≤ d.2.1 then
      (some { x := d.2.2.1, y := d.2.2.2
              width := (d.1.2 : ℤ), height := (d.1.1 : ℤ)
              confidence := d.2.1
              center_x := d.2.2.1 + pyFloorDiv (d.1.2 : ℤ) 2
              center_y := d.2.2.2 + pyFloorDiv (d.1.1 : ℤ) 2
              method := "preprocessed_" ++ ppName mth }, d.2.1)
    else acc

/-- Embedding of `TemplateMatcher._match_with_preprocessing`
(lines 350-397). -/
def matchWithPreprocessing
    (res : PreprocMethod → Except Unit ((ℕ × ℕ) × ℚ × (ℤ × ℤ)))
    (confidence : ℚ) : Option MatchResult :=
  (preprocMethods.foldl (ppStep res confidence) (none, 0)).1

theorem msStep_good (fH fW tH tW : ℕ) (score : ℚ → ℚ × ℤ × ℤ) (c : ℚ)
    (acc : Option MatchResult × ℚ) (s : ℚ) (hg : msGood c acc) :
    msGood c (msStep fH fW tH tW score c acc s) := by
  unfold msStep
  by_cases hskip : msSkip fH fW tH tW s = true
  · rw [if_pos hskip]
    exact hg
  · rw [if_neg hskip]
    by_cases hcond : acc.2 < (score s).1 ∧ c ≤ (score s).1
    · rw [if_pos hcond]
      constructor
      · intro h
        cases h
      · intro m hm
        cases hm
        exact ⟨rfl, hcond.2⟩
    · rw [if_neg hcond]
      exact hg

/-- The concrete multi-scale stage satisfies the stage post-condition of
the cascade, for every threshold. -/
theorem matchMultiScale_wellBehaved (fH fW tH tW : ℕ)
    (score : ℚ → ℚ × ℤ × ℤ) (c : ℚ) (m : MatchResult)
    (hm : matchMultiScale fH fW tH tW score c = some m) : c ≤ m.confidence := by
  have hfold : ∀ (L : List ℚ) (acc : Option MatchResult × ℚ), msGood c acc →
      msGood c (L.foldl (msStep fH fW tH tW score c) acc) := by
    intro L
    induction L with
    | nil => exact fun acc hg => hg
    | cons s L ih =>
      intro acc hg
      simp only [List.foldl_cons]
      exact ih _ (msStep_good fH fW tH tW score c acc s hg)
  exact ((hfold scaleFactors (none, 0)
    ⟨fun _ => rfl, fun m h => by cases h⟩).2 m hm).2

/-- The concrete feature stage satisfies the stage post-condition, for
every threshold. -/
theorem matchFeatures_wellBehaved (o : FeatureOracle) (c : ℚ)
    (r : MatchResult) (hr : matchFeatures o c = some r) : c ≤ r.confidence := by
  cases hd1 : o.des1 with
  | none => simp [matchFeatures, hd1] at hr
  | some n1 =>
  cases hd2 : o.des2 with
  | none => simp [matchFeatures, hd1, hd2] at hr
  | some n2 =>
  by_cases hn1 : n1 < 10
  · simp [matchFeatures, hd1, hd2, hn1] at hr
  · by_cases hg : (o.knnPairs.filter goodPair).length < 10
    · simp [matchFeatures, hd1, hd2, hn1, hg] at hr
    · cases hh : o.homography with
      | none => simp [matchFeatures, hd1, hd2, hn1, hg, hh] at hr
      | some p =>
        obtain ⟨cs, mask⟩ := p
        by_cases hc : c ≤ inlierRatio mask
        · simp only [matchFeatures, hd1, hd2, hn1, if_false, hg, hh, hc,
            if_true, Option.some.injEq] at hr
          subst hr
          exact hc
        · simp [matchFeatures, hd1, hd2, hn1, hg, hh, hc] at hr

/-- The Option-level correlation stage for a non-raising correlation
oracle (the executions the Option-level cascade of C1 describes). -/
def matchTemplateOpt (corr : TMMethod → MinMaxLoc) (tH tW : ℕ)
    (confidence : ℚ) : Option MatchResult :=
  match (matchTemplateRun (fun m => Except.ok (corr m)) tH tW confidence).1 with
  | Except.ok r => r
  | Except.error _ => none

theorem matchTemplateGo_conf (corr : TMMethod → Except Unit MinMaxLoc)
    (tH tW : ℕ) (c : ℚ) :
    ∀ (ms : List TMMethod) (best : Option MatchResult) (bc : ℚ)
      (tr : List TMMethod),
      (∀ b, best = some b → c ≤ b.confidence) →
      ∀ m, (matchTemplateGo corr tH tW c ms best bc tr).1 =
          Except.ok (some m) → c ≤ m.confidence := by
  intro ms
  induction ms with
  | nil =>
    intro best bc tr hinv m hm
    simp only [matchTemplateGo] at hm
    injection hm with hm'
    exact hinv m hm'
  | cons mth ms ih =>
    intro best bc tr hinv m hm
    simp only [matchTemplateGo] at hm
    cases hc : corr mth with
    | error e =>
      rw [hc] at hm
      cases hm
    | ok r =>
      rw [hc] at hm
      dsimp only at hm
      by_cases hcond : bc < tmConfidence mth r ∧ c ≤ tmConfidence mth r
      · rw [if_pos hcond] at hm
        refine ih _ _ _ ?_ m hm
        intro b hb
        cases hb
        exact hcond.2
      · rw [if_neg hcond] at hm
        exact ih _ _ _ hinv m hm

/-- The concrete correlation stage satisfies the stage post-condition,
for every threshold. -/
theorem matchTemplateOpt_wellBehaved (corr : TMMethod → MinMaxLoc)
    (tH tW : ℕ) (c : ℚ) (m : MatchResult)
    (hm : matchTemplateOpt corr tH tW c = some m) : c ≤ m.confidence := by
  unfold matchTemplateOpt at hm
  cases he : (matchTemplateRun (fun m => Except.ok (corr m)) tH tW c).1 with
  | error e => rw [he] at hm; cases hm
  | ok r =>
    rw [he] at hm
    subst hm
    exact matchTemplateGo_conf _ tH tW c tmMethods none 0 []
      (fun b hb => by cases hb) m he

/-- The concrete preprocessing stage satisfies the stage post-condition,
for every threshold. -/
theorem matchWithPreprocessing_wellBehaved
    (res : PreprocMethod → Except Unit ((ℕ × ℕ) × ℚ × (ℤ × ℤ))) (c : ℚ)
    (m : MatchResult) (hm : matchWithPreprocessing res c = some m) :
    c ≤ m.confidence := by
  have hstep : ∀ (acc : Option MatchResult × ℚ) (mth : PreprocMethod),
      msGood c acc → msGood c (ppStep res c acc mth) := by
    intro acc mth hg
    unfold ppStep
    cases res mth with
    | error e => exact hg
    | ok d =>
      dsimp only
      by_cases hcond : acc.2 < d.2.1 ∧ c ≤ d.2.1
      · rw [if_pos hcond]
        constructor
        · intro h
          cases h
        · intro b hb
          cases hb
          exact ⟨rfl, hcond.2⟩
      · rw [if_neg hcond]
        exact hg
  have hfold : ∀ (L : List PreprocMethod) (acc : Option MatchResult × ℚ),
      msGood c acc → msGood c (L.foldl (ppStep res c) acc) := by
    intro L
    induction L with
    | nil => exact fun acc hg => hg
    | cons mth L ih =>
      intro acc hg
      simp only [List.foldl_cons]
      exact ih _ (hstep acc mth hg)
  exact ((hfold preprocMethods (none, 0)
    ⟨fun _ => rfl, fun b h => by cases h⟩).2 m hm).2

/-- The cascade's stage family assembled from the four concrete matcher
embeddings, given the primitive oracles of one (frame, template) pair. -/
def concreteStages (fH fW tH tW : ℕ) (score : ℚ → ℚ × ℤ × ℤ)
    (fo : FeatureOracle) (corr : TMMethod → MinMaxLoc)
    (pp : PreprocMethod → Except Unit ((ℕ × ℕ) × ℚ × (ℤ × ℤ))) : Stages where
  matchMultiScale := matchMultiScale fH fW tH tW score
  matchFeatures := matchFeatures fo
  matchTemplate := matchTemplateOpt corr tH tW
  matchWithPreprocessing := matchWithPreprocessing pp

/-- The concrete stage family satisfies `WellBehaved` outright, so the
hypothesis of the C1 theorem holds for the real matchers whatever the
primitive oracles return. -/
theorem concreteStages_wellBehaved (fH fW tH tW : ℕ)
    (score : ℚ → ℚ × ℤ × ℤ) (fo : FeatureOracle)
    (corr : TMMethod → MinMaxLoc)
    (pp : PreprocMethod → Except Unit ((ℕ × ℕ) × ℚ × (ℤ × ℤ))) :
    WellBehaved (concreteStages fH fW tH tW score fo corr pp) :=
  ⟨fun t m hm => matchMultiScale_wellBehaved fH fW tH tW score t m hm,
   fun t m hm => matchFeatures_wellBehaved fo t m hm,
   fun t m hm => matchTemplateOpt_wellBehaved corr tH tW t m hm,
   fun t m hm => matchWithPreprocessing_wellBehaved pp t m hm⟩

end BrowserGeist
